import Mathlib

/-!
Verification of the transfer-orchestration core of `p2p-client`
(`src/p2p-client/src/lib.rs`), as a shallow embedding in Lean 4.

Modelling conventions:
* A Rust `Path`/`PathBuf` is embedded as its component sequence
  (`List PathComp`).  Rust compares, iterates and manipulates paths
  through `components()`, so this is the semantic view of a path;
  repeated separators and interior `.` segments are already normalized
  away by that view.
* Rust's `str::split('/')`, `str::contains(c)` and `[&str]::join("/")`
  are modelled on the character list `String.data`, which is exactly
  their semantics and keeps every definition kernel-computable.
* External collaborators (the iroh blob store, the network endpoint,
  the ngrok tunnel, the filesystem walk) are oracle parameters: the
  functions under test receive their answers as explicit arguments.
* Content hashes are opaque identifiers, embedded as `Nat`.
* Progress reporting over an mpsc channel is embedded as the list of
  status events sent, in order.
-/

namespace P2PClient

instance {ε α : Type} [DecidableEq ε] [DecidableEq α] : DecidableEq (Except ε α) := fun
  | .ok a, .ok b =>
    if h : a = b then .isTrue (by rw [h]) else .isFalse (by simp [h])
  | .ok _, .error _ => .isFalse (fun h => Except.noConfusion h)
  | .error _, .ok _ => .isFalse (fun h => Except.noConfusion h)
  | .error e, .error f =>
    if h : e = f then .isTrue (by rw [h]) else .isFalse (by simp [h])

/-- A single component of a Rust path, after `Path::components()`
normalization (`std::path::Component`; the Windows-only `Prefix`
variant is omitted). -/
inductive PathComp where
  | rootDir
  | curDir
  | parentDir
  | normal (s : String)
deriving DecidableEq, Repr

/-- A Rust `Path`/`PathBuf`, viewed as its component sequence. -/
abbrev RPath := List PathComp

/-- Rust `str::contains(c)` for a character needle, on the character
list of the string. -/
def strHasChar (s : String) (c : Char) : Bool :=
  s.data.contains c

/-- Rust `str::split('/')`: the (possibly empty) pieces of `s` between
occurrences of `'/'`; splitting the empty string yields `[""]`. -/
def splitSlash (s : String) : List String :=
  (s.data.splitOn '/').map String.mk

/-- Rust `[&str]::join("/")`: concatenation with `"/"` interspersed. -/
def joinSlash (ps : List String) : String :=
  String.mk (List.intercalate ['/'] (ps.map String.data))

/-- The component loop of `canonicalized_path_to_string`
(src/p2p-client/src/lib.rs:583-604): collect the `Normal` components,
rejecting any component that contains `'/'` or `'\'`, any `..` or `.`
component, and (when `mustBeRelative`) the root component.  Invalid
UTF-8 components (`to_str` returning `None`) cannot arise in this
embedding because components are already `String`s. -/
def collectParts (mustBeRelative : Bool) : RPath → Except String (List String)
  | [] => .ok []
  | PathComp.normal x :: cs =>
    if (strHasChar x '/' || strHasChar x '\\') = true then
      .error ("Invalid path component: " ++ x)
    else
      (collectParts mustBeRelative cs).map (fun ps => x :: ps)
  | PathComp.rootDir :: cs =>
    if mustBeRelative then
      .error "Invalid path component: RootDir"
    else
      collectParts mustBeRelative cs
  | PathComp.curDir :: _ => .error "Invalid path component: CurDir"
  | PathComp.parentDir :: _ => .error "Invalid path component: ParentDir"

/-- `canonicalized_path_to_string` (src/p2p-client/src/lib.rs:583-604):
joins the accepted components with `"/"`. -/
def canonicalized_path_to_string (path : RPath) (mustBeRelative : Bool) :
    Except String String :=
  (collectParts mustBeRelative path).map joinSlash

/-- Rust `PathBuf::push(part)` for a single slash-free part coming from
`name.split('/')`: pushing the empty string only adds a separator, so
it leaves the component sequence unchanged; any other part is appended
as one `Normal` component. -/
def pushPart (p : RPath) (part : String) : RPath :=
  if part = "" then p else p ++ [PathComp.normal part]

/-- The part loop of `get_export_path`
(src/p2p-client/src/lib.rs:569-580): reject a part that contains a
backslash or equals `".."` or `"."`, otherwise push it onto the path
being built. -/
def exportPathLoop : RPath → List String → Except String RPath
  | path, [] => .ok path
  | path, part :: rest =>
    if (strHasChar part '\\' || part == ".." || part == ".") = true then
      .error ("invalid path component: " ++ part)
    else
      exportPathLoop (pushPart path part) rest

/-- `get_export_path` (src/p2p-client/src/lib.rs:569-580): split the
name on `'/'` and push each checked part onto `root`. -/
def get_export_path (root : RPath) (name : String) : Except String RPath :=
  exportPathLoop root (splitSlash name)

/-! ### Lemmas about the path codec -/

/-- A character that `strHasChar` misses is not in the string's data. -/
theorem not_mem_data_of_strHasChar_eq_false {s : String} {c : Char}
    (h : strHasChar s c = false) : c ∉ s.data := by
  simpa [strHasChar] using h

/-- Splitting the slash-join of nonempty, slash-free parts recovers the
parts: Rust `join("/")` and `split('/')` are mutually inverse here. -/
theorem splitSlash_joinSlash (ps : List String) (hne : ps ≠ [])
    (h : ∀ x ∈ ps, strHasChar x '/' = false) :
    splitSlash (joinSlash ps) = ps := by
  show ((List.intercalate ['/'] (ps.map String.data)).splitOn '/').map String.mk = ps
  rw [@List.splitOn_intercalate _ (ps.map String.data) _ '/'
    (by
      intro l hl
      obtain ⟨x, hx, rfl⟩ := List.mem_map.mp hl
      exact not_mem_data_of_strHasChar_eq_false (h x hx))
    (by simpa using hne)]
  rw [List.map_map]
  exact List.map_id'' (fun s => rfl) ps

/-- `collectParts` fails as soon as the component list holds a `..`, a
`.`, or a component containing a backslash. -/
theorem collectParts_error_of_bad : ∀ p : RPath,
    (PathComp.parentDir ∈ p ∨ PathComp.curDir ∈ p ∨
      ∃ x, PathComp.normal x ∈ p ∧ strHasChar x '\\' = true) →
    ∃ e, collectParts true p = .error e := by
  intro p
  induction p with
  | nil => rintro (h | h | ⟨x, h, _⟩) <;> simp at h
  | cons c cs ih =>
    intro hbad
    match c with
    | PathComp.parentDir => exact ⟨_, rfl⟩
    | PathComp.curDir => exact ⟨_, rfl⟩
    | PathComp.rootDir => exact ⟨_, rfl⟩
    | PathComp.normal x =>
      by_cases hx : (strHasChar x '/' || strHasChar x '\\') = true
      · exact ⟨"Invalid path component: " ++ x, by rw [collectParts, if_pos hx]⟩
      · have hx' : strHasChar x '/' = false ∧ strHasChar x '\\' = false := by
          simpa [Bool.or_eq_false_iff] using hx
        have htail : PathComp.parentDir ∈ cs ∨ PathComp.curDir ∈ cs ∨
            ∃ y, PathComp.normal y ∈ cs ∧ strHasChar y '\\' = true := by
          rcases hbad with h | h | ⟨y, hy, hback⟩
          · exact Or.inl (by simpa using h)
          · exact Or.inr (Or.inl (by simpa using h))
          · rcases List.mem_cons.mp hy with heq | hmem
            · cases heq
              rw [hx'.2] at hback
              cases hback
            · exact Or.inr (Or.inr ⟨y, hmem, hback⟩)
        obtain ⟨e, he⟩ := ih htail
        exact ⟨e, by rw [collectParts, if_neg hx, he]; rfl⟩

/-- `exportPathLoop` fails as soon as the part list holds `".."`, a
bare `"."`, or a part containing a backslash. -/
theorem exportPathLoop_error_of_bad : ∀ (parts : List String) (path : RPath),
    (".." ∈ parts ∨ "." ∈ parts ∨ ∃ x ∈ parts, strHasChar x '\\' = true) →
    ∃ e, exportPathLoop path parts = .error e := by
  intro parts
  induction parts with
  | nil => rintro path (h | h | ⟨x, h, _⟩) <;> simp at h
  | cons part rest ih =>
    intro path hbad
    by_cases hcond : (strHasChar part '\\' || part == ".." || part == ".") = true
    · exact ⟨"invalid path component: " ++ part, by rw [exportPathLoop, if_pos hcond]⟩
    · have hc : (strHasChar part '\\' = false ∧ ¬ part = "..") ∧ ¬ part = "." := by
        simpa [Bool.or_eq_false_iff] using hcond
      have htail : ".." ∈ rest ∨ "." ∈ rest ∨ ∃ x ∈ rest, strHasChar x '\\' = true := by
        rcases hbad with h | h | ⟨x, hx, hback⟩
        · rcases List.mem_cons.mp h with heq | hmem
          · exact absurd heq.symm hc.1.2
          · exact Or.inl hmem
        · rcases List.mem_cons.mp h with heq | hmem
          · exact absurd heq.symm hc.2
          · exact Or.inr (Or.inl hmem)
        · rcases List.mem_cons.mp hx with heq | hmem
          · subst heq
            rw [hc.1.1] at hback
            cases hback
          · exact Or.inr (Or.inr ⟨x, hmem, hback⟩)
      obtain ⟨e, he⟩ := ih (pushPart path part) htail
      exact ⟨e, by rw [exportPathLoop, if_neg hcond, he]⟩

/-- On an all-good part list, `exportPathLoop` succeeds and appends the
nonempty parts, in order, as `Normal` components. -/
theorem exportPathLoop_ok_of_good : ∀ (parts : List String) (path : RPath),
    (∀ x ∈ parts, (strHasChar x '\\' || x == ".." || x == ".") = false) →
    exportPathLoop path parts =
      .ok (path ++ (parts.filter (fun x => x != "")).map PathComp.normal) := by
  intro parts
  induction parts with
  | nil => intro path _; simp [exportPathLoop]
  | cons part rest ih =>
    intro path hgood
    have hcond := hgood part (List.mem_cons_self part rest)
    rw [exportPathLoop, if_neg (by simp [hcond])]
    rw [ih (pushPart path part) (fun x hx => hgood x (List.mem_cons_of_mem _ hx))]
    by_cases hemp : part = ""
    · simp [pushPart, hemp]
    · simp [pushPart, hemp, List.filter_cons, List.append_assoc]

/-- Every `.ok` result of `exportPathLoop` is the input path followed
by the nonempty parts as `Normal` components. -/
theorem exportPathLoop_ok_eq : ∀ (parts : List String) (path p : RPath),
    exportPathLoop path parts = .ok p →
    p = path ++ (parts.filter (fun x => x != "")).map PathComp.normal := by
  intro parts
  induction parts with
  | nil => intro path p h; simpa [exportPathLoop] using h.symm
  | cons part rest ih =>
    intro path p h
    rw [exportPathLoop] at h
    by_cases hcond : (strHasChar part '\\' || part == ".." || part == ".") = true
    · rw [if_pos hcond] at h
      cases h
    · rw [if_neg hcond] at h
      have := ih (pushPart path part) p h
      by_cases hemp : part = ""
      · simpa [pushPart, hemp] using this
      · simp only [pushPart, if_neg hemp] at this
        simp [this, hemp, List.filter_cons, List.append_assoc]

/-- On all-normal components without slash or backslash, `collectParts`
returns exactly the component strings. -/
theorem collectParts_ok_of_good : ∀ ps : List String,
    (∀ x ∈ ps, strHasChar x '/' = false ∧ strHasChar x '\\' = false) →
    collectParts true (ps.map PathComp.normal) = .ok ps := by
  intro ps
  induction ps with
  | nil => intro _; rfl
  | cons x rest ih =>
    intro hgood
    have hx := hgood x (List.mem_cons_self x rest)
    simp only [List.map_cons, collectParts, hx.1, hx.2, Bool.or_self, Bool.false_eq_true,
      if_false]
    rw [ih (fun y hy => hgood y (List.mem_cons_of_mem _ hy))]
    rfl

/-! ### Claim theorems for the path codec -/

/-- C1: the path codec rejects traversal-dangerous inputs in both
directions.  Encoding (`canonicalized_path_to_string` with
`must_be_relative = true`) fails on every path whose components hold a
`..` component, a `.` component, or a component with a literal
backslash; decoding (`get_export_path`) fails, for every root, on
every name one of whose slash-separated parts is `".."`, a bare `"."`,
or contains a backslash. -/
theorem c1_codec_rejects_traversal :
    (∀ p : RPath,
      (PathComp.parentDir ∈ p ∨ PathComp.curDir ∈ p ∨
        ∃ x, PathComp.normal x ∈ p ∧ strHasChar x '\\' = true) →
      ∃ e, canonicalized_path_to_string p true = .error e) ∧
    (∀ (root : RPath) (name : String),
      (".." ∈ splitSlash name ∨ "." ∈ splitSlash name ∨
        ∃ part ∈ splitSlash name, strHasChar part '\\' = true) →
      ∃ e, get_export_path root name = .error e) := by
  constructor
  · intro p hbad
    obtain ⟨e, he⟩ := collectParts_error_of_bad p hbad
    exact ⟨e, by simp [canonicalized_path_to_string, he, Except.map]⟩
  · intro root name hbad
    exact exportPathLoop_error_of_bad (splitSlash name) root hbad

/-- Witness for C1 at concrete inputs: a `..` path component is
rejected by encoding, and a name with a `..` part is rejected by
decoding. -/
theorem c1_codec_rejects_traversal_witness :
    (∃ e, canonicalized_path_to_string [PathComp.parentDir] true = .error e) ∧
    (∃ e, get_export_path [] "../x" = .error e) :=
  ⟨c1_codec_rejects_traversal.1 [PathComp.parentDir] (Or.inl (by decide)),
   c1_codec_rejects_traversal.2 [] "../x" (Or.inl (by decide))⟩

/-- C2: round trip.  For every path all of whose components are normal
components that are nonempty, not `"."`, not `".."`, and free of `'/'`
and `'\'` (every real relative Rust path with no dot components and no
backslash is of this shape), encoding succeeds, and decoding the
resulting name under any root yields the root followed by the path. -/
theorem c2_codec_roundtrip (root : RPath) (ps : List String)
    (h : ∀ x ∈ ps, x ≠ "" ∧ x ≠ "." ∧ x ≠ ".." ∧
      strHasChar x '/' = false ∧ strHasChar x '\\' = false) :
    ∃ name, canonicalized_path_to_string (ps.map PathComp.normal) true = .ok name ∧
      get_export_path root name = .ok (root ++ ps.map PathComp.normal) := by
  have hcollect : collectParts true (ps.map PathComp.normal) = .ok ps :=
    collectParts_ok_of_good ps (fun x hx => ⟨(h x hx).2.2.2.1, (h x hx).2.2.2.2⟩)
  refine ⟨joinSlash ps, ?_, ?_⟩
  · simp [canonicalized_path_to_string, hcollect, Except.map]
  · rcases eq_or_ne ps [] with rfl | hne
    · have h1 : splitSlash (joinSlash ([] : List String)) = [""] := rfl
      show exportPathLoop root (splitSlash (joinSlash ([] : List String))) =
        Except.ok (root ++ ([] : List String).map PathComp.normal)
      rw [h1, exportPathLoop, if_neg (by decide)]
      simp [exportPathLoop, pushPart]
    · show exportPathLoop root (splitSlash (joinSlash ps)) =
        Except.ok (root ++ ps.map PathComp.normal)
      rw [splitSlash_joinSlash ps hne (fun x hx => (h x hx).2.2.2.1)]
      rw [exportPathLoop_ok_of_good ps root (fun x hx => by
        have hx' := h x hx
        simp [hx'.1, hx'.2.1, hx'.2.2.1, hx'.2.2.2.2])]
      congr 1
      congr 1
      rw [List.filter_eq_self.mpr (fun x hx => by simp [(h x hx).1])]

/-- Witness for C2 at a concrete input: the path `a/b.txt` encodes to a
name that decodes back to the same path under the root. -/
theorem c2_codec_roundtrip_witness :
    ∃ name, canonicalized_path_to_string
        (["a", "b.txt"].map PathComp.normal) true = .ok name ∧
      get_export_path [PathComp.rootDir] name =
        .ok ([PathComp.rootDir] ++ ["a", "b.txt"].map PathComp.normal) :=
  c2_codec_roundtrip [PathComp.rootDir] ["a", "b.txt"] (by decide)

/-- C10: every accepted name decodes to the root extended, in order, by
the name's slash-separated parts (empty parts extend the path by
nothing, exactly as Rust's `PathBuf::push("")`), so the root is always
a prefix of the returned path and no accepted name can escape it. -/
theorem c10_export_path_stays_under_root (root : RPath) (name : String) (p : RPath)
    (h : get_export_path root name = .ok p) :
    p = root ++ ((splitSlash name).filter (fun x => x != "")).map PathComp.normal ∧
      root <+: p := by
  have := exportPathLoop_ok_eq (splitSlash name) root p h
  exact ⟨this, this ▸ ⟨_, rfl⟩⟩

/-- Witness for C10 at a concrete input: the name `"a//b"` (with an
empty part) decodes to `root/a/b`, with the root as a prefix. -/
theorem c10_export_path_stays_under_root_witness :
    [PathComp.normal "a", PathComp.normal "b"] =
      [] ++ ((splitSlash "a//b").filter (fun x => x != "")).map PathComp.normal ∧
      [] <+: [PathComp.normal "a", PathComp.normal "b"] :=
  c10_export_path_stays_under_root [] "a//b" _ (by decide)

/-! ### The import pipeline (`import`, src/p2p-client/src/lib.rs:454-522)

`import` is embedded after the filesystem-dependent preamble: the
imported path has been canonicalized, `root` is its parent directory,
and `files` is the list of regular files produced by the `WalkDir`
enumeration, in filesystem iteration order.  The blob store is the
oracle `stage` (the outcome of the per-file `add_path_with_opts`
progress stream: the reported size and the temp tag's hash, or the
stream's error) together with `persist` (the outcome of
`Collection::store`).  `metaLen` is `metadata().len()` with the
`unwrap_or(0)` already absorbed. -/

/-- An opaque content hash. -/
abbrev Hash := Nat

/-- Rust `String::cmp` as a `≤` test: byte-lexicographic order, which
on UTF-8 coincides with the codepoint-lexicographic order of the
character list. -/
def strLe (a b : String) : Bool := !decide (b.data < a.data)

/-- `strLe` agrees with the linear order on `String`. -/
theorem strLe_iff (a b : String) : strLe a b = true ↔ a ≤ b := by
  show (!decide (b.data < a.data)) = true ↔ a ≤ b
  rw [Bool.not_eq_true', decide_eq_false_iff_not]
  have h1 : b < a ↔ b.data < a.data := by
    rw [@String.lt_iff_toList_lt b a]
    simp [String.toList]
  rw [← h1]
  exact not_lt

/-- The `SendStatus` progress enum (src/p2p-client/src/lib.rs:45-64). -/
inductive SendStatus where
  | connecting
  | importing (totalFiles doneFiles : Nat) (totalSize doneSize : Nat)
  | readyToSend (ticket : String)
  | transferring (peer : String)
  | peerDisconnected (peer : String)
  | done
  | error (msg : String)
deriving DecidableEq, Repr

/-- Rust `Path::strip_prefix` specialised to the walk, where `root` is
an ancestor prefix of every enumerated file. -/
def stripRoot (root p : RPath) : Except String RPath :=
  if root.isPrefixOf p then .ok (p.drop root.length)
  else .error "prefix not found"

/-- The name-computation pass of `import`
(src/p2p-client/src/lib.rs:462-472): for each walked file, strip the
root and encode the relative path; the `collect::<Result<_>>` makes
the first failure abort the whole import. -/
def dataSources (root : RPath) : List RPath → Except String (List (String × RPath))
  | [] => .ok []
  | f :: fs =>
    match stripRoot root f with
    | .error e => .error e
    | .ok rel =>
      match canonicalized_path_to_string rel true with
      | .error e => .error e
      | .ok name =>
        match dataSources root fs with
        | .error e => .error e
        | .ok rest => .ok ((name, f) :: rest)

/-- The staging loop of `import` (src/p2p-client/src/lib.rs:481-512):
before each file an `Importing` event is emitted, then the file is
staged; a staging error aborts with an error naming the file.  Returns
the events emitted and either the `(name, tag hash, size)` records or
the error. -/
def importLoop (stage : RPath → Except String (Nat × Hash))
    (totalFiles totalSize : Nat) :
    Nat → Nat → List (String × RPath) →
    List SendStatus × Except String (List (String × Hash × Nat))
  | _, _, [] => ([], .ok [])
  | doneFiles, doneSize, (name, p) :: rest =>
    let ev := SendStatus.importing totalFiles doneFiles totalSize doneSize
    match stage p with
    | .error cause => ([ev], .error ("error importing " ++ name ++ ": " ++ cause))
    | .ok (sz, h) =>
      let out := importLoop stage totalFiles totalSize (doneFiles + 1) (doneSize + sz) rest
      (ev :: out.1, out.2.map (fun nts => (name, h, sz) :: nts))

/-- `import` (src/p2p-client/src/lib.rs:454-522): compute the names,
pre-compute the totals, stage every file, sort the records by name,
sum the staged sizes, build the collection and persist it.  Returns
the emitted events and either `(collection tag hash, total size,
collection)` or the error. -/
def importModel (root : RPath) (files : List RPath) (metaLen : RPath → Nat)
    (stage : RPath → Except String (Nat × Hash))
    (persist : List (String × Hash) → Except String Hash) :
    List SendStatus × Except String (Hash × Nat × List (String × Hash)) :=
  match dataSources root files with
  | .error e => ([], .error e)
  | .ok ds =>
    let totalFiles := ds.length
    let totalSize := (ds.map (fun np => metaLen np.2)).sum
    let out := importLoop stage totalFiles totalSize 0 0 ds
    (out.1,
      match out.2 with
      | .error e => .error e
      | .ok nts =>
        let sorted := nts.mergeSort (fun a b => strLe a.1 b.1)
        let size := (sorted.map (fun t => t.2.2)).sum
        let collection := sorted.map (fun t => (t.1, t.2.1))
        match persist collection with
        | .error e => .error e
        | .ok tag => .ok (tag, size, collection))

/-- Recogniser for `Importing` events. -/
def isImporting : SendStatus → Bool
  | .importing _ _ _ _ => true
  | _ => false

/-- Recogniser for `Connecting` events. -/
def isConnecting : SendStatus → Bool
  | .connecting => true
  | _ => false

/-! ### Lemmas about the import pipeline -/

/-- `mergeSort` of a two-element list, unfolded. -/
theorem mergeSort_pair {α : Type} (le : α → α → Bool) (a b : α) :
    List.mergeSort [a, b] le = if le a b then [a, b] else [b, a] := by
  rw [List.mergeSort]
  have h1 : List.splitInTwo (n := 2) ⟨[a, b], rfl⟩ = (⟨[a], rfl⟩, ⟨[b], rfl⟩) := rfl
  rw [h1]
  rw [List.mergeSort, List.mergeSort]
  by_cases h : le a b <;> simp [List.merge, h]

/-- Every event emitted by the staging loop is an `Importing` event. -/
theorem importLoop_events_importing (stage : RPath → Except String (Nat × Hash))
    (totalFiles totalSize : Nat) :
    ∀ (ds : List (String × RPath)) (doneFiles doneSize : Nat),
    ∀ e ∈ (importLoop stage totalFiles totalSize doneFiles doneSize ds).1,
      isImporting e = true := by
  intro ds
  induction ds with
  | nil => intro _ _ e he; simp [importLoop] at he
  | cons np rest ih =>
    intro doneFiles doneSize e he
    obtain ⟨name, p⟩ := np
    rw [importLoop] at he
    match hstage : stage p with
    | .error cause =>
      rw [hstage] at he
      simp only [List.mem_singleton] at he
      subst he
      rfl
    | .ok (sz, h) =>
      rw [hstage] at he
      simp only [List.mem_cons] at he
      rcases he with rfl | he
      · rfl
      · exact ih (doneFiles + 1) (doneSize + sz) e he

/-- Every event emitted by `import` is an `Importing` event. -/
theorem importModel_events_importing (root : RPath) (files : List RPath)
    (metaLen : RPath → Nat) (stage : RPath → Except String (Nat × Hash))
    (persist : List (String × Hash) → Except String Hash) :
    ∀ e ∈ (importModel root files metaLen stage persist).1, isImporting e = true := by
  intro e he
  rw [importModel] at he
  match hds : dataSources root files with
  | .error m => rw [hds] at he; simp at he
  | .ok ds =>
    rw [hds] at he
    exact importLoop_events_importing stage _ _ ds 0 0 e he

/-- With an always-successful store, the staging loop returns one
record per data source, in order. -/
theorem importLoop_all_ok (szF : RPath → Nat) (hF : RPath → Hash)
    (totalFiles totalSize : Nat) :
    ∀ (ds : List (String × RPath)) (doneFiles doneSize : Nat),
    (importLoop (fun p => .ok (szF p, hF p)) totalFiles totalSize doneFiles doneSize ds).2 =
      .ok (ds.map (fun np => (np.1, hF np.2, szF np.2))) := by
  intro ds
  induction ds with
  | nil => intro _ _; rfl
  | cons np rest ih =>
    intro doneFiles doneSize
    obtain ⟨name, p⟩ := np
    rw [importLoop]
    simp only [List.map_cons]
    rw [ih (doneFiles + 1) (doneSize + szF p)]
    rfl

/-- If every file before some file stages successfully and that file's
staging fails, the staging loop fails with an error naming it. -/
theorem importLoop_error (stage : RPath → Except String (Nat × Hash))
    (totalFiles totalSize : Nat) (name : String) (p : RPath) (cause : String)
    (rest : List (String × RPath)) (hfail : stage p = .error cause) :
    ∀ (pre : List (String × RPath)) (doneFiles doneSize : Nat),
    (∀ q ∈ pre, ∃ r, stage q.2 = .ok r) →
    (importLoop stage totalFiles totalSize doneFiles doneSize
        (pre ++ (name, p) :: rest)).2 =
      .error ("error importing " ++ name ++ ": " ++ cause) := by
  intro pre
  induction pre with
  | nil =>
    intro doneFiles doneSize _
    rw [List.nil_append, importLoop, hfail]
  | cons q pre' ih =>
    intro doneFiles doneSize hpre
    obtain ⟨qn, qp⟩ := q
    obtain ⟨⟨sz, h⟩, hq⟩ := hpre ⟨qn, qp⟩ (List.mem_cons_self _ _)
    rw [List.cons_append, importLoop, hq]
    simp only
    rw [ih (doneFiles + 1) (doneSize + sz)
      (fun r hr => hpre r (List.mem_cons_of_mem _ hr))]
    rfl

/-- The second components of a successful `dataSources` result are the
walked files, in order. -/
theorem dataSources_ok_map_snd (root : RPath) :
    ∀ (files : List RPath) (ds : List (String × RPath)),
    dataSources root files = .ok ds → ds.map Prod.snd = files := by
  intro files
  induction files with
  | nil => intro ds h; cases h; rfl
  | cons f fs ih =>
    intro ds h
    rw [dataSources] at h
    split at h
    · cases h
    · split at h
      · cases h
      · split at h
        · cases h
        · next rest hrest =>
            cases h
            simp [ih rest hrest]

/-- The comparison used by the sort is transitive. -/
theorem nameLe_trans (a b c : String × Hash × Nat) :
    strLe a.1 b.1 → strLe b.1 c.1 → strLe a.1 c.1 := fun hab hbc =>
  (strLe_iff _ _).mpr (le_trans ((strLe_iff _ _).mp hab) ((strLe_iff _ _).mp hbc))

/-- The comparison used by the sort is total. -/
theorem nameLe_total (a b : String × Hash × Nat) :
    strLe a.1 b.1 || strLe b.1 a.1 := by
  simp only [Bool.or_eq_true]
  rcases le_total a.1 b.1 with h | h
  · exact Or.inl ((strLe_iff _ _).mpr h)
  · exact Or.inr ((strLe_iff _ _).mpr h)

/-- Full characterisation of `import` when enumeration, staging and
persisting all succeed. -/
theorem importModel_ok_eq (root : RPath) (files : List RPath)
    (metaLen szF : RPath → Nat) (hF : RPath → Hash)
    (tagF : List (String × Hash) → Hash) (ds : List (String × RPath))
    (hds : dataSources root files = .ok ds) :
    importModel root files metaLen (fun p => .ok (szF p, hF p))
        (fun c => .ok (tagF c)) =
      ((importLoop (fun p => .ok (szF p, hF p)) ds.length
          ((ds.map fun np => metaLen np.2).sum) 0 0 ds).1,
        .ok (tagF (((ds.map (fun np => (np.1, hF np.2, szF np.2))).mergeSort
            (fun a b => strLe a.1 b.1)).map (fun t => (t.1, t.2.1))),
          (((ds.map (fun np => (np.1, hF np.2, szF np.2))).mergeSort
            (fun a b => strLe a.1 b.1)).map (fun t => t.2.2)).sum,
          ((ds.map (fun np => (np.1, hF np.2, szF np.2))).mergeSort
            (fun a b => strLe a.1 b.1)).map (fun t => (t.1, t.2.1)))) := by
  rw [importModel, hds]
  simp only
  rw [importLoop_all_ok]

/-! ### Claim theorems for the import pipeline -/

/-- C3: when enumeration and naming succeed and every staging succeeds,
`import` returns a collection with exactly one entry per walked file,
sorted lexicographically by name, and a total size equal to the sum of
the staged sizes. -/
theorem c3_import_sorted_collection (root : RPath) (files : List RPath)
    (metaLen szF : RPath → Nat) (hF : RPath → Hash)
    (tagF : List (String × Hash) → Hash) (ds : List (String × RPath))
    (hds : dataSources root files = .ok ds) :
    ∃ evs tag col,
      importModel root files metaLen (fun p => .ok (szF p, hF p))
          (fun c => .ok (tagF c)) =
        (evs, .ok (tag, (files.map szF).sum, col)) ∧
      col.length = files.length ∧
      List.Sorted (· ≤ ·) (col.map Prod.fst) := by
  have hloop := importLoop_all_ok szF hF ds.length
    ((ds.map fun np => metaLen np.2).sum) ds 0 0
  have hsnd := dataSources_ok_map_snd root files ds hds
  have hlen : ds.length = files.length := by
    rw [← hsnd, List.length_map]
  have hperm : List.Perm
      ((ds.map (fun np => (np.1, hF np.2, szF np.2))).mergeSort
        (fun a b => strLe a.1 b.1))
      (ds.map (fun np => (np.1, hF np.2, szF np.2))) :=
    List.mergeSort_perm _ _
  have hsum : (((ds.map (fun np => (np.1, hF np.2, szF np.2))).mergeSort
      (fun a b => strLe a.1 b.1)).map (fun t => t.2.2)).sum = (files.map szF).sum := by
    rw [(hperm.map (fun t => t.2.2)).sum_eq]
    rw [show (ds.map (fun np => (np.1, hF np.2, szF np.2))).map (fun t => t.2.2) =
      (ds.map Prod.snd).map szF by simp [List.map_map]]
    rw [hsnd]
  have hsorted : List.Sorted (· ≤ ·)
      ((((ds.map (fun np => (np.1, hF np.2, szF np.2))).mergeSort
        (fun a b => strLe a.1 b.1)).map (fun t => (t.1, t.2.1))).map Prod.fst) := by
    have hp := List.sorted_mergeSort nameLe_trans nameLe_total
      (ds.map (fun np => (np.1, hF np.2, szF np.2)))
    rw [List.map_map]
    exact List.Pairwise.map _ (fun a b h => (strLe_iff _ _).mp h) hp
  refine ⟨(importLoop (fun p => .ok (szF p, hF p)) ds.length
      ((ds.map fun np => metaLen np.2).sum) 0 0 ds).1,
    tagF (((ds.map (fun np => (np.1, hF np.2, szF np.2))).mergeSort
      (fun a b => strLe a.1 b.1)).map (fun t => (t.1, t.2.1))),
    ((ds.map (fun np => (np.1, hF np.2, szF np.2))).mergeSort
      (fun a b => strLe a.1 b.1)).map (fun t => (t.1, t.2.1)),
    ?_, ?_, hsorted⟩
  · rw [importModel, hds]
    simp only
    rw [hloop]
    simp only
    rw [hsum]
  · simp only [List.length_map, List.length_mergeSort]
    exact hlen

/-- Witness for C3 at a concrete input: importing one file `/a.txt`
under root `/` yields a one-entry sorted collection of total size 3. -/
theorem c3_import_sorted_collection_witness :
    ∃ evs tag col,
      importModel [PathComp.rootDir] [[PathComp.rootDir, PathComp.normal "a.txt"]]
          (fun _ => 3) (fun _ => .ok (3, 7)) (fun _ => .ok 9) =
        (evs, .ok (tag, ([[PathComp.rootDir, PathComp.normal "a.txt"]].map (fun _ => 3)).sum, col)) ∧
      col.length = [[PathComp.rootDir, PathComp.normal "a.txt"]].length ∧
      List.Sorted (· ≤ ·) (col.map Prod.fst) :=
  c3_import_sorted_collection [PathComp.rootDir] [[PathComp.rootDir, PathComp.normal "a.txt"]]
    (fun _ => 3) (fun _ => 3) (fun _ => 7) (fun _ => 9)
    [("a.txt", [PathComp.rootDir, PathComp.normal "a.txt"])] (by decide)

/-- C7: when the store fails while staging one file, the whole import
fails with an error naming that file; no collection is returned, and
the outcome does not depend on the collection-persisting oracle at
all (so nothing is persisted). -/
theorem c7_import_error_aborts (root : RPath) (files : List RPath)
    (metaLen : RPath → Nat) (stage : RPath → Except String (Nat × Hash))
    (persist : List (String × Hash) → Except String Hash)
    (ds pre rest : List (String × RPath)) (name : String) (p : RPath) (cause : String)
    (hds : dataSources root files = .ok ds)
    (hsplit : ds = pre ++ (name, p) :: rest)
    (hpre : ∀ q ∈ pre, ∃ r, stage q.2 = .ok r)
    (hfail : stage p = .error cause) :
    (importModel root files metaLen stage persist).2 =
      .error ("error importing " ++ name ++ ": " ++ cause) ∧
    ∀ persist2 : List (String × Hash) → Except String Hash,
      importModel root files metaLen stage persist =
        importModel root files metaLen stage persist2 := by
  have hloop := importLoop_error stage ds.length ((ds.map fun np => metaLen np.2).sum)
    name p cause rest hfail pre 0 0 hpre
  rw [← hsplit] at hloop
  constructor
  · rw [importModel, hds]
    simp only
    rw [hloop]
  · intro persist2
    rw [importModel, importModel, hds]
    simp only
    rw [hloop]

/-- Witness for C7 at a concrete input: a store failure on the single
file `/a.txt` aborts the import with an error naming `a.txt`. -/
theorem c7_import_error_aborts_witness :
    (importModel [PathComp.rootDir] [[PathComp.rootDir, PathComp.normal "a.txt"]]
        (fun _ => 3) (fun _ => .error "boom") (fun _ => .ok 9)).2 =
      .error ("error importing " ++ "a.txt" ++ ": " ++ "boom") ∧
    ∀ persist2 : List (String × Hash) → Except String Hash,
      importModel [PathComp.rootDir] [[PathComp.rootDir, PathComp.normal "a.txt"]]
          (fun _ => 3) (fun _ => .error "boom") (fun _ => .ok 9) =
        importModel [PathComp.rootDir] [[PathComp.rootDir, PathComp.normal "a.txt"]]
          (fun _ => 3) (fun _ => .error "boom") persist2 :=
  c7_import_error_aborts [PathComp.rootDir] [[PathComp.rootDir, PathComp.normal "a.txt"]]
    (fun _ => 3) (fun _ => .error "boom") (fun _ => .ok 9)
    [("a.txt", [PathComp.rootDir, PathComp.normal "a.txt"])] [] []
    "a.txt" [PathComp.rootDir, PathComp.normal "a.txt"] "boom"
    (by decide) rfl (by simp) rfl

/-- The walked file `d/x.txt` in the C9 scenario, as an absolute path
under the canonical directory `/d`. -/
def xFile : RPath := [PathComp.rootDir, PathComp.normal "d", PathComp.normal "x.txt"]

/-- The walked file `d/sub/y.txt` in the C9 scenario. -/
def yFile : RPath :=
  [PathComp.rootDir, PathComp.normal "d", PathComp.normal "sub", PathComp.normal "y.txt"]

/-- C9 counterexample: importing the directory `/d` containing
`/d/x.txt` and `/d/sub/y.txt` (root = the canonical path's parent `/`)
yields entry names `d/x.txt` and `d/sub/y.txt` — the names keep the
`d/` prefix because `import` strips the *parent* of the imported path —
so the collection is not `{"x.txt", "sub/y.txt"}` as the claim
states. -/
theorem c9_counterexample :
    ∃ tag size col,
      (importModel [PathComp.rootDir] [xFile, yFile] (fun _ => 1)
          (fun p => .ok (1, p.length)) (fun _ => .ok 9)).2 = .ok (tag, size, col) ∧
      col.map Prod.fst = ["d/sub/y.txt", "d/x.txt"] ∧
      ¬ "x.txt" ∈ col.map Prod.fst ∧ ¬ "sub/y.txt" ∈ col.map Prod.fst := by
  have hds : dataSources [PathComp.rootDir] [xFile, yFile] =
      .ok [("d/x.txt", xFile), ("d/sub/y.txt", yFile)] := by decide
  have heq := importModel_ok_eq [PathComp.rootDir] [xFile, yFile] (fun _ => 1)
    (fun _ => 1) (fun p => p.length) (fun _ => 9)
    [("d/x.txt", xFile), ("d/sub/y.txt", yFile)] hds
  rw [show List.map (fun np => (np.1, (fun p : RPath => p.length) np.2,
        (fun _ : RPath => 1) np.2)) [("d/x.txt", xFile), ("d/sub/y.txt", yFile)] =
      [("d/x.txt", xFile.length, 1), ("d/sub/y.txt", yFile.length, 1)] from rfl,
    mergeSort_pair, if_neg (by decide)] at heq
  exact ⟨9, _, _, congrArg Prod.snd heq, by decide, by decide, by decide⟩

/-- C9, amended: importing the directory `/d` containing `/d/x.txt`
and `/d/sub/y.txt` produces, for either filesystem iteration order,
the collection whose entries are exactly `d/x.txt` and `d/sub/y.txt`
(names are computed relative to the imported path's parent, so they
keep the `d/` prefix), sorted lexicographically. -/
theorem c9_amended_import_scenario (metaLen szF : RPath → Nat) (hF : RPath → Hash)
    (tagF : List (String × Hash) → Hash) (files : List RPath)
    (horder : files = [xFile, yFile] ∨ files = [yFile, xFile]) :
    ∃ evs tag size,
      importModel [PathComp.rootDir] files metaLen (fun p => .ok (szF p, hF p))
          (fun c => .ok (tagF c)) =
        (evs, .ok (tag, size, [("d/sub/y.txt", hF yFile), ("d/x.txt", hF xFile)])) := by
  rcases horder with rfl | rfl
  · have hds : dataSources [PathComp.rootDir] [xFile, yFile] =
        .ok [("d/x.txt", xFile), ("d/sub/y.txt", yFile)] := by decide
    have heq := importModel_ok_eq [PathComp.rootDir] [xFile, yFile] metaLen
      szF hF tagF [("d/x.txt", xFile), ("d/sub/y.txt", yFile)] hds
    rw [show List.map (fun np => (np.1, hF np.2, szF np.2))
          [("d/x.txt", xFile), ("d/sub/y.txt", yFile)] =
        [("d/x.txt", hF xFile, szF xFile), ("d/sub/y.txt", hF yFile, szF yFile)] from rfl,
      mergeSort_pair,
      if_neg (show ¬ strLe ("d/x.txt", hF xFile, szF xFile).1
          ("d/sub/y.txt", hF yFile, szF yFile).1 = true from
        fun h => Bool.false_ne_true h)] at heq
    exact ⟨_, _, _, heq⟩
  · have hds : dataSources [PathComp.rootDir] [yFile, xFile] =
        .ok [("d/sub/y.txt", yFile), ("d/x.txt", xFile)] := by decide
    have heq := importModel_ok_eq [PathComp.rootDir] [yFile, xFile] metaLen
      szF hF tagF [("d/sub/y.txt", yFile), ("d/x.txt", xFile)] hds
    rw [show List.map (fun np => (np.1, hF np.2, szF np.2))
          [("d/sub/y.txt", yFile), ("d/x.txt", xFile)] =
        [("d/sub/y.txt", hF yFile, szF yFile), ("d/x.txt", hF xFile, szF xFile)] from rfl,
      mergeSort_pair,
      if_pos (show strLe ("d/sub/y.txt", hF yFile, szF yFile).1
          ("d/x.txt", hF xFile, szF xFile).1 = true from rfl)] at heq
    exact ⟨_, _, _, heq⟩

/-- Witness for the amended C9 at a concrete input: one of the two
iteration orders, with concrete sizes and hashes. -/
theorem c9_amended_import_scenario_witness :
    ∃ evs tag size,
      importModel [PathComp.rootDir] [xFile, yFile] (fun _ => 1)
          (fun p => .ok ((fun _ : RPath => 1) p, (fun q : RPath => q.length) p))
          (fun c => .ok ((fun _ => 9) c)) =
        (evs, .ok (tag, size,
          [("d/sub/y.txt", (fun q : RPath => q.length) yFile),
           ("d/x.txt", (fun q : RPath => q.length) xFile)])) :=
  c9_amended_import_scenario (fun _ => 1) (fun _ => 1) (fun q => q.length)
    (fun _ => 9) [xFile, yFile] (Or.inl rfl)

/-! ### The export pipeline (`export`, src/p2p-client/src/lib.rs:525-565)

`export` walks the collection in order; for each entry it emits an
`Exporting` event, decodes the entry name under the output root, fails
fast if the destination already exists, creates the parent directory
chain, and materializes the blob.  The filesystem is embedded as the
list of existing paths (`fs`); the blob store's `export_with_opts`
stream outcome is the oracle `mat`, and every materialization call is
recorded so that "no bytes were written" is visible in the model.
`create_dir_all` is modelled as succeeding; its failure would only
abort the export before any materialization. -/

/-- The `ReceiveStatus` progress enum (src/p2p-client/src/lib.rs:68-75). -/
inductive ReceiveStatus where
  | connecting
  | connected (totalFiles totalSize : Nat)
  | downloading (downloaded total : Nat)
  | exporting (totalFiles doneFiles : Nat)
  | done
  | error (msg : String)
deriving DecidableEq, Repr

/-- `Path::display` for the embedded path, used in error messages. -/
def pathDisplay (p : RPath) : String :=
  joinSlash (p.map (fun c => match c with
    | PathComp.rootDir => ""
    | PathComp.curDir => "."
    | PathComp.parentDir => ".."
    | PathComp.normal s => s))

/-- The `bail!` message of `export` when a destination already exists. -/
def destExistsMsg (target : RPath) : String :=
  "target " ++ pathDisplay target ++ " already exists. Please remove it and try again."

/-- The directory chain `create_dir_all` brings into existence: every
nonempty prefix of the given directory path. -/
def dirAncestors (p : RPath) : List RPath :=
  (List.range p.length).map (fun i => p.take (i + 1))

/-- The observable outcome of an `export` run: the events sent, the
store materialization calls made, the final filesystem, and the
result. -/
structure ExportOut where
  events : List ReceiveStatus
  calls : List (Hash × RPath)
  fs : List RPath
  result : Except String Unit
deriving DecidableEq, Repr

/-- The entry loop of `export` (src/p2p-client/src/lib.rs:532-562). -/
def exportLoop (mat : Hash → RPath → Except String Unit) (root : RPath)
    (totalFiles : Nat) : Nat → List RPath → List (String × Hash) → ExportOut
  | _, fs, [] => ⟨[], [], fs, .ok ()⟩
  | doneFiles, fs, (name, h) :: rest =>
    let ev := ReceiveStatus.exporting totalFiles doneFiles
    match get_export_path root name with
    | .error e => ⟨[ev], [], fs, .error e⟩
    | .ok target =>
      if target ∈ fs then
        ⟨[ev], [], fs, .error (destExistsMsg target)⟩
      else
        let fs1 := fs ++ dirAncestors target.dropLast
        match mat h target with
        | .error cause =>
          ⟨[ev], [(h, target)], fs1,
            .error ("error exporting " ++ name ++ ": " ++ cause)⟩
        | .ok _ =>
          let out := exportLoop mat root totalFiles (doneFiles + 1) (fs1 ++ [target]) rest
          ⟨ev :: out.events, (h, target) :: out.calls, out.fs, out.result⟩

/-- `export` (src/p2p-client/src/lib.rs:525-565): run the entry loop
from the output root's filesystem state and emit a terminal `Done`
event on full success. -/
def exportModel (mat : Hash → RPath → Except String Unit) (root : RPath)
    (fs : List RPath) (collection : List (String × Hash)) : ExportOut :=
  let out := exportLoop mat root collection.length 0 fs collection
  match out.result with
  | .ok _ => ⟨out.events ++ [ReceiveStatus.done], out.calls, out.fs, .ok ()⟩
  | .error _ => out

/-! ### Lemmas about the export pipeline -/

/-- The entry loop over an appended list runs the first list and, if it
succeeded, continues with the second from the resulting state. -/
theorem exportLoop_append (mat : Hash → RPath → Except String Unit) (root : RPath)
    (totalFiles : Nat) :
    ∀ (l1 l2 : List (String × Hash)) (doneFiles : Nat) (fs : List RPath),
    exportLoop mat root totalFiles doneFiles fs (l1 ++ l2) =
      (match exportLoop mat root totalFiles doneFiles fs l1 with
      | ⟨evs, calls, fs1, .ok _⟩ =>
        let o2 := exportLoop mat root totalFiles (doneFiles + l1.length) fs1 l2
        ⟨evs ++ o2.events, calls ++ o2.calls, o2.fs, o2.result⟩
      | o1 => o1) := by
  intro l1
  induction l1 with
  | nil =>
    intro l2 doneFiles fs
    simp [exportLoop]
  | cons e l1' ih =>
    intro l2 doneFiles fs
    obtain ⟨name, h⟩ := e
    rw [List.cons_append, exportLoop, exportLoop]
    match htarget : get_export_path root name with
    | .error m => simp
    | .ok target =>
      simp only
      by_cases hmem : target ∈ fs
      · rw [if_pos hmem, if_pos hmem]
      · rw [if_neg hmem, if_neg hmem]
        match hmat : mat h target with
        | .error cause => simp
        | .ok _ =>
          simp only
          rw [ih l2 (doneFiles + 1) (fs ++ dirAncestors target.dropLast ++ [target])]
          match ho1 : exportLoop mat root totalFiles (doneFiles + 1)
              (fs ++ dirAncestors target.dropLast ++ [target]) l1' with
          | ⟨evs, calls, fs1, .ok u⟩ =>
            cases u
            simp only [List.length_cons]
            rw [show doneFiles + (l1'.length + 1) = doneFiles + 1 + l1'.length from by omega]
            simp
          | ⟨evs, calls, fs1, .error m⟩ => simp

/-- One loop step on an entry whose destination already exists: the
loop stops with the destination-exists error, makes no
materialization call and leaves the filesystem unchanged. -/
theorem exportLoop_cons_exists (mat : Hash → RPath → Except String Unit)
    (root : RPath) (totalFiles doneFiles : Nat) (fs : List RPath)
    (name : String) (h : Hash) (rest : List (String × Hash)) (target : RPath)
    (htarget : get_export_path root name = .ok target) (hexists : target ∈ fs) :
    exportLoop mat root totalFiles doneFiles fs ((name, h) :: rest) =
      ⟨[ReceiveStatus.exporting totalFiles doneFiles], [], fs,
        .error (destExistsMsg target)⟩ := by
  rw [exportLoop]
  simp only [htarget]
  rw [if_pos hexists]

/-! ### Claim theorem for the export pipeline -/

/-- C4: when export reaches an entry whose destination path exists in
the filesystem at that point (all earlier entries having succeeded),
it fails with the destination-exists error; no materialization call is
made for that entry or any later one, and the filesystem is left
exactly as it was, so the existing file is neither overwritten nor
partially written. -/
theorem c4_export_dest_exists (mat : Hash → RPath → Except String Unit)
    (root : RPath) (fs : List RPath) (pre rest : List (String × Hash))
    (name : String) (h : Hash) (evs0 : List ReceiveStatus)
    (calls0 : List (Hash × RPath)) (fs1 : List RPath) (target : RPath)
    (hpre : exportLoop mat root (pre ++ (name, h) :: rest).length 0 fs pre =
      ⟨evs0, calls0, fs1, .ok ()⟩)
    (htarget : get_export_path root name = .ok target)
    (hexists : target ∈ fs1) :
    exportModel mat root fs (pre ++ (name, h) :: rest) =
      ⟨evs0 ++ [ReceiveStatus.exporting (pre ++ (name, h) :: rest).length pre.length],
        calls0, fs1, .error (destExistsMsg target)⟩ := by
  rw [exportModel]
  rw [exportLoop_append mat root (pre ++ (name, h) :: rest).length pre
    ((name, h) :: rest) 0 fs]
  rw [hpre]
  simp only
  rw [exportLoop_cons_exists mat root (pre ++ (name, h) :: rest).length
    (0 + pre.length) fs1 name h rest target htarget hexists]
  simp

/-- Witness for C4 at a concrete input: exporting the single entry
`a.txt` into a filesystem where `/a.txt` already exists fails with the
destination-exists error and performs no materialization. -/
theorem c4_export_dest_exists_witness :
    exportModel (fun _ _ => .ok ()) [PathComp.rootDir]
        [[PathComp.rootDir, PathComp.normal "a.txt"]] [("a.txt", 7)] =
      ⟨[] ++ [ReceiveStatus.exporting [("a.txt", 7)].length 0], [],
        [[PathComp.rootDir, PathComp.normal "a.txt"]],
        .error (destExistsMsg [PathComp.rootDir, PathComp.normal "a.txt"])⟩ := by
  have := c4_export_dest_exists (fun _ _ => .ok ()) [PathComp.rootDir]
    [[PathComp.rootDir, PathComp.normal "a.txt"]] [] [] "a.txt" 7 [] []
    [[PathComp.rootDir, PathComp.normal "a.txt"]]
    [PathComp.rootDir, PathComp.normal "a.txt"] rfl (by decide) (by decide)
  simpa using this

/-! ### The HTTP download handler (`download_handler`,
src/p2p-client/src/lib.rs:418-445)

The handler is embedded over oracles for the external pieces: `Hash`
parsing (`hash_str.parse::<Hash>()`), the store's `has` query (whose
`Result` the code collapses with `unwrap_or(false)`) and the store's
`reader` byte stream.  A response body is either the plain text of an
error tuple response or the streamed bytes of a blob; the error
responses never construct a `ReaderStream`, which is what "no body is
streamed" means. -/

/-- A response body: plain text or a streamed blob. -/
inductive HttpBody where
  | text (s : String)
  | bytes (bs : List Nat)
deriving DecidableEq, Repr

/-- The parts of the axum response the handler sets explicitly. -/
structure HttpResponse where
  status : Nat
  headers : List (String × String)
  body : HttpBody
deriving DecidableEq, Repr

/-- `download_handler` (src/p2p-client/src/lib.rs:418-445). -/
def download_handler (parseHash : String → Option Hash)
    (has : Hash → Option Bool) (reader : Hash → List Nat)
    (fileName : String) (hashStr : String) : HttpResponse :=
  match parseHash hashStr with
  | none => ⟨400, [], .text "Invalid hash format"⟩
  | some hash =>
    if (has hash).getD false = false then
      ⟨404, [], .text "Not found"⟩
    else
      ⟨200,
        [("content-type", "application/octet-stream"),
         ("content-disposition", "attachment; filename=\"" ++ fileName ++ "\"")],
        .bytes (reader hash)⟩

/-- C5: a malformed content id yields 400 and a parseable but unstaged
id yields 404, in both cases with a plain-text body and no streamed
blob bytes; a staged id yields 200 whose body is exactly the blob's
bytes, with the octet-stream content type and an attachment
disposition carrying the file name. -/
theorem c5_download_handler_cases (parseHash : String → Option Hash)
    (has : Hash → Option Bool) (reader : Hash → List Nat)
    (fileName hashStr : String) :
    (parseHash hashStr = none →
      download_handler parseHash has reader fileName hashStr =
        ⟨400, [], .text "Invalid hash format"⟩) ∧
    (∀ h, parseHash hashStr = some h → (has h).getD false = false →
      download_handler parseHash has reader fileName hashStr =
        ⟨404, [], .text "Not found"⟩) ∧
    (∀ h, parseHash hashStr = some h → (has h).getD false = true →
      download_handler parseHash has reader fileName hashStr =
        ⟨200,
          [("content-type", "application/octet-stream"),
           ("content-disposition", "attachment; filename=\"" ++ fileName ++ "\"")],
          .bytes (reader h)⟩) := by
  refine ⟨fun hp => ?_, fun h hp hh => ?_, fun h hp hh => ?_⟩
  · rw [download_handler, hp]
  · rw [download_handler, hp]
    simp [hh]
  · rw [download_handler, hp]
    simp [hh]

/-- Witness for C5 at concrete inputs: all three cases of the handler
at concrete oracles. -/
theorem c5_download_handler_cases_witness :
    (download_handler (fun _ => none) (fun _ => some true) (fun _ => [1, 2])
        "f.bin" "zz" = ⟨400, [], .text "Invalid hash format"⟩) ∧
    (download_handler (fun _ => some 5) (fun _ => some false) (fun _ => [1, 2])
        "f.bin" "05" = ⟨404, [], .text "Not found"⟩) ∧
    (download_handler (fun _ => some 5) (fun _ => some true) (fun _ => [1, 2])
        "f.bin" "05" =
      ⟨200,
        [("content-type", "application/octet-stream"),
         ("content-disposition", "attachment; filename=\"" ++ "f.bin" ++ "\"")],
        .bytes [1, 2]⟩) :=
  ⟨(c5_download_handler_cases (fun _ => none) (fun _ => some true)
      (fun _ => [1, 2]) "f.bin" "zz").1 rfl,
   (c5_download_handler_cases (fun _ => some 5) (fun _ => some false)
      (fun _ => [1, 2]) "f.bin" "05").2.1 5 rfl rfl,
   (c5_download_handler_cases (fun _ => some 5) (fun _ => some true)
      (fun _ => [1, 2]) "f.bin" "05").2.2 5 rfl rfl⟩

/-! ### The receive session (`receive_file`, src/p2p-client/src/lib.rs:143-180)

`receive_file` parses the ticket (oracle `parseTicket`, of which only
the content hash is used afterwards), reads the current directory
(oracle `cwd`), derives the temporary directory name from the ticket's
hash, runs `receive_logic` (oracle `logic`, returning the events it
emits and its result), then always attempts `remove_dir_all` on the
temporary directory, and only afterwards reports a terminal `Error`
when the logic failed.  The observable trace interleaves the status
events sent and the filesystem operations. -/

/-- An observable event of a receive session: a status sent to the
progress channel or a directory-tree removal. -/
inductive RecvEvent where
  | status (s : ReceiveStatus)
  | removeDirAll (p : RPath)
deriving DecidableEq, Repr

/-- `receive_file` (src/p2p-client/src/lib.rs:143-180). -/
def receive_file (parseTicket : String → Except String Hash)
    (hexOf : Hash → String) (cwd : Except String RPath)
    (logic : RPath → List RecvEvent × Except String Unit)
    (ticketStr : String) : List RecvEvent :=
  match parseTicket ticketStr with
  | .error e => [RecvEvent.status (ReceiveStatus.error e)]
  | .ok h =>
    match cwd with
    | .error e => [RecvEvent.status (ReceiveStatus.error e)]
    | .ok d =>
      let dataDir := d ++ [PathComp.normal (".p2p-client-recv-" ++ hexOf h)]
      let out := logic dataDir
      out.1 ++ RecvEvent.removeDirAll dataDir ::
        (match out.2 with
        | .ok _ => []
        | .error e => [RecvEvent.status (ReceiveStatus.error e)])

/-- C6: if the ticket fails to parse, the whole trace is a single
`Error` status — in particular no directory is touched; if it parses
(and the current directory is readable), the temporary directory named
deterministically from the ticket's hash is removed right after the
logic's own events, whatever the outcome, and a terminal `Error` is
reported only after that removal. -/
theorem c6_receive_cleanup (parseTicket : String → Except String Hash)
    (hexOf : Hash → String) (cwd : Except String RPath)
    (logic : RPath → List RecvEvent × Except String Unit) (ticketStr : String) :
    (∀ e, parseTicket ticketStr = .error e →
      receive_file parseTicket hexOf cwd logic ticketStr =
        [RecvEvent.status (ReceiveStatus.error e)]) ∧
    (∀ h d, parseTicket ticketStr = .ok h → cwd = .ok d →
      ∃ suf,
        receive_file parseTicket hexOf cwd logic ticketStr =
          (logic (d ++ [PathComp.normal (".p2p-client-recv-" ++ hexOf h)])).1 ++
            RecvEvent.removeDirAll
              (d ++ [PathComp.normal (".p2p-client-recv-" ++ hexOf h)]) :: suf ∧
        ((logic (d ++ [PathComp.normal (".p2p-client-recv-" ++ hexOf h)])).2 = .ok () →
          suf = []) ∧
        (∀ e, (logic (d ++ [PathComp.normal (".p2p-client-recv-" ++ hexOf h)])).2 =
            .error e →
          suf = [RecvEvent.status (ReceiveStatus.error e)])) := by
  constructor
  · intro e hp
    rw [receive_file, hp]
  · intro h d hp hd
    rw [receive_file, hp, hd]
    refine ⟨_, rfl, fun hok => ?_, fun e herr => ?_⟩
    · rw [hok]
    · rw [herr]

/-- Witness for C6 at concrete inputs: both the parse-failure trace and
the successful-parse cleanup ordering. -/
theorem c6_receive_cleanup_witness :
    (receive_file (fun _ => .error "bad ticket") (fun _ => "ff")
        (.ok [PathComp.rootDir]) (fun _ => ([], .ok ())) "t" =
      [RecvEvent.status (ReceiveStatus.error "bad ticket")]) ∧
    (∃ suf,
      receive_file (fun _ => .ok 5) (fun _ => "ff") (.ok [PathComp.rootDir])
          (fun _ => ([], .error "net down")) "t" =
        [] ++ RecvEvent.removeDirAll
            ([PathComp.rootDir] ++
              [PathComp.normal (".p2p-client-recv-" ++ "ff")]) :: suf ∧
        ((Except.error "net down" : Except String Unit) = .ok () → suf = []) ∧
        (∀ e, (Except.error "net down" : Except String Unit) = .error e →
          suf = [RecvEvent.status (ReceiveStatus.error e)])) :=
  ⟨(c6_receive_cleanup (fun _ => .error "bad ticket") (fun _ => "ff")
      (.ok [PathComp.rootDir]) (fun _ => ([], .ok ())) "t").1 "bad ticket" rfl,
   (c6_receive_cleanup (fun _ => .ok 5) (fun _ => "ff") (.ok [PathComp.rootDir])
      (fun _ => ([], .error "net down")) "t").2 5 [PathComp.rootDir] rfl rfl⟩

/-! ### The send sessions (`send_internal`,
src/p2p-client/src/lib.rs:182-248, and `start_http_send_internal`,
src/p2p-client/src/lib.rs:251-341)

Both functions are embedded as the list of status events sent, with
the network-dependent steps as oracles: `setup` covers endpoint/store
setup before the import, `online` the relay-reachability wait, `bind`
the local TCP bind, `tunnel` the ngrok session (yielding the public
URL), `ticketOf` the `BlobTicket` rendering and `hashRepr` the hash
rendering in the download URL.  The import is the embedded
`importModel`. -/

/-- The single-file restriction of the HTTP variant
(src/p2p-client/src/lib.rs:266-273). -/
def singleFileOf (c : List (String × Hash)) : Except String (Hash × String) :=
  if c.length = 1 then
    match c.head? with
    | some nh => .ok (nh.2, nh.1)
    | none => .error "Collection is empty"
  else
    .error "Sending directories via web link is not yet supported. Please select a single file."

/-- `send_internal` (src/p2p-client/src/lib.rs:182-248), as its trace
of status events. -/
def send_internal (setup : Except String Unit) (root : RPath) (files : List RPath)
    (metaLen : RPath → Nat) (stage : RPath → Except String (Nat × Hash))
    (persist : List (String × Hash) → Except String Hash)
    (online : Except String Unit) (ticketOf : Hash → String) : List SendStatus :=
  SendStatus.connecting ::
    (match setup with
    | .error _ => []
    | .ok _ =>
      let out := importModel root files metaLen stage persist
      out.1 ++
        (match out.2 with
        | .error _ => []
        | .ok tsc =>
          match online with
          | .error _ => []
          | .ok _ => [SendStatus.readyToSend (ticketOf tsc.1)]))

/-- `start_http_send_internal` (src/p2p-client/src/lib.rs:251-341), as
its trace of status events; note the second `Connecting` sent at line
285, after the import. -/
def start_http_send_internal (setup : Except String Unit) (root : RPath)
    (files : List RPath) (metaLen : RPath → Nat)
    (stage : RPath → Except String (Nat × Hash))
    (persist : List (String × Hash) → Except String Hash)
    (bind : Except String Unit) (tunnel : Except String String)
    (hashRepr : Hash → String) : List SendStatus :=
  SendStatus.connecting ::
    (match setup with
    | .error _ => []
    | .ok _ =>
      let out := importModel root files metaLen stage persist
      out.1 ++
        (match out.2 with
        | .error _ => []
        | .ok tsc =>
          match singleFileOf tsc.2.2 with
          | .error _ => []
          | .ok hn =>
            SendStatus.connecting ::
              (match bind with
              | .error _ => []
              | .ok _ =>
                match tunnel with
                | .error _ => []
                | .ok url =>
                  [SendStatus.readyToSend (url ++ "/download/" ++ hashRepr hn.1)])))

/-- Whether some `Connecting` event occurs strictly after some
`Importing` event in a trace. -/
def connAfterImp : List SendStatus → Bool
  | [] => false
  | s :: rest => (isImporting s && rest.any isConnecting) || connAfterImp rest

/-! ### Claim theorems for the send sessions -/

/-- C8 counterexample: in the HTTP variant, a successful single-file
session emits `Connecting` again after the `Importing` event (line 285
of the source sends `Connecting` a second time, after the import), so
the claim that neither variant ever emits `Connecting` after
`Importing` is false at this input. -/
theorem c8_counterexample :
    connAfterImp (start_http_send_internal (.ok ()) [PathComp.rootDir]
      [[PathComp.rootDir, PathComp.normal "f.txt"]] (fun _ => 5)
      (fun _ => .ok (5, 7)) (fun _ => .ok 9) (.ok ()) (.ok "https://t")
      (fun _ => "abc")) = true := by
  have hds : dataSources [PathComp.rootDir]
      [[PathComp.rootDir, PathComp.normal "f.txt"]] =
      .ok [("f.txt", [PathComp.rootDir, PathComp.normal "f.txt"])] := by decide
  rw [start_http_send_internal, importModel, hds]
  simp only [importLoop, Except.map, List.mergeSort_singleton, singleFileOf]
  decide

/-- C8, amended: in each variant the first event is `Connecting` and
all following events up to the end are the import's `Importing`
events, except that a terminal segment may follow: for the P2P variant
the terminal segment is a single `ReadyToSend`, while for the HTTP
variant it is a second `Connecting` (sent after the import) optionally
followed by `ReadyToSend`.  The P2P variant therefore never emits
`Connecting` after an `Importing` event, but the HTTP variant does. -/
theorem c8_amended_send_event_order :
    (∀ (setup : Except String Unit) (root : RPath) (files : List RPath)
      (metaLen : RPath → Nat) (stage : RPath → Except String (Nat × Hash))
      (persist : List (String × Hash) → Except String Hash)
      (online : Except String Unit) (ticketOf : Hash → String),
      ∃ evs tail,
        send_internal setup root files metaLen stage persist online ticketOf =
          SendStatus.connecting :: (evs ++ tail) ∧
        (∀ e ∈ evs, isImporting e = true) ∧
        (tail = [] ∨ ∃ t, tail = [SendStatus.readyToSend t])) ∧
    (∀ (setup : Except String Unit) (root : RPath) (files : List RPath)
      (metaLen : RPath → Nat) (stage : RPath → Except String (Nat × Hash))
      (persist : List (String × Hash) → Except String Hash)
      (bind : Except String Unit) (tunnel : Except String String)
      (hashRepr : Hash → String),
      ∃ evs tail,
        start_http_send_internal setup root files metaLen stage persist
            bind tunnel hashRepr =
          SendStatus.connecting :: (evs ++ tail) ∧
        (∀ e ∈ evs, isImporting e = true) ∧
        (tail = [] ∨ (∃ t, tail = [SendStatus.connecting, SendStatus.readyToSend t]) ∨
          tail = [SendStatus.connecting])) := by
  constructor
  · intro setup root files metaLen stage persist online ticketOf
    rw [send_internal.eq_def]
    match setup with
    | .error e => exact ⟨[], [], rfl, by simp, Or.inl rfl⟩
    | .ok _ =>
      simp only
      refine ⟨(importModel root files metaLen stage persist).1, _, rfl,
        importModel_events_importing root files metaLen stage persist, ?_⟩
      match (importModel root files metaLen stage persist).2 with
      | .error e => exact Or.inl rfl
      | .ok tsc =>
        match online with
        | .error e => exact Or.inl rfl
        | .ok _ => exact Or.inr ⟨ticketOf tsc.1, rfl⟩
  · intro setup root files metaLen stage persist bind tunnel hashRepr
    rw [start_http_send_internal.eq_def]
    match setup with
    | .error e => exact ⟨[], [], rfl, by simp, Or.inl rfl⟩
    | .ok _ =>
      simp only
      refine ⟨(importModel root files metaLen stage persist).1, _, rfl,
        importModel_events_importing root files metaLen stage persist, ?_⟩
      match hres : (importModel root files metaLen stage persist).2 with
      | .error e => simp only [hres]; exact Or.inl trivial
      | .ok tsc =>
        simp only [hres]
        match hsf : singleFileOf tsc.2.2 with
        | .error e => simp only [hsf]; exact Or.inl trivial
        | .ok hn =>
          simp only [hsf]
          match bind with
          | .error e => exact Or.inr (Or.inr rfl)
          | .ok _ =>
            match tunnel with
            | .error e => exact Or.inr (Or.inr rfl)
            | .ok url =>
              exact Or.inr (Or.inl ⟨url ++ "/download/" ++ hashRepr hn.1, rfl⟩)

end P2PClient
